import Mathlib

/-!
Shallow embedding of the ESS tax-calculation engine (ess-calculations module).

Numbers are modelled as rationals, dates as integers (milliseconds since
epoch, the value of `Date.getTime()` on the ISO date strings the code
carries).  Thrown `Error`s are modelled as `Except EssError` with one
error constructor per distinct throw site message.  JavaScript truthiness
of an optional number (`!exchangeRate`) is modelled by `truthy`, which is
false for an absent value and for 0.
-/

instance {ε α : Type} [DecidableEq ε] [DecidableEq α] :
    DecidableEq (Except ε α) := fun a b =>
  match a, b with
  | .error e, .error f =>
    if h : e = f then .isTrue (congrArg Except.error h)
    else .isFalse fun c => h (Except.error.inj c)
  | .error _, .ok _ => .isFalse Except.noConfusion
  | .ok _, .error _ => .isFalse Except.noConfusion
  | .ok a, .ok b =>
    if h : a = b then .isTrue (congrArg Except.ok h)
    else .isFalse fun c => h (Except.ok.inj c)

/-- Milliseconds in one day: the `1000 * 3600 * 24` constant of the source. -/
def msPerDay : Int := 1000 * 3600 * 24

/-- `Math.round(x * 100) / 100` of the source: round to 2 decimals,
half toward positive infinity. -/
def round2 (q : ℚ) : ℚ := (((q * 100 + 1 / 2).floor : ℤ) : ℚ) / 100

/-- The two currencies of the source (`'USD' | 'AUD'`). -/
inductive Currency
  | USD
  | AUD
deriving DecidableEq

/-- One constructor per distinct `throw new Error(...)` message of the source. -/
inductive EssError
  | exchangeRateRequiredVesting
  | amountNegative
  | rateNonPositive
  | exchangeRateRequiredConversion
  | conversionDateRequired
  | unsupportedConversion
  | saleBeforeVesting
  | saleBeforeAcquisition
  | overAllocation
  | exchangeRateRequired30Day
  | exchangeRateRequiredUsdSales
deriving DecidableEq

/-- JavaScript truthiness of an optional number: `undefined` and `0` are falsy. -/
def truthy : Option ℚ → Bool
  | none => false
  | some r => decide (r ≠ 0)

/-- The numeric value of an optional rate in a branch where it is truthy. -/
def rateVal (o : Option ℚ) : ℚ := o.getD 0

structure VestingEvent where
  vestDate : Int
  sharePrice : ℚ
  sharesVested : ℚ
  costBase : Option ℚ := none
  currency : Currency
  exchangeRate : Option ℚ := none
deriving DecidableEq

structure ShareSaleEvent where
  saleDate : Int
  sharesSold : ℚ
  salePricePerShare : ℚ
  currency : Currency
  exchangeRate : Option ℚ := none
  brokerageCommission : Option ℚ := none
  supplementalFees : Option ℚ := none
  acquisitionDate : Option Int := none
deriving DecidableEq

structure CurrencyConversionResult where
  originalAmount : ℚ
  originalCurrency : Currency
  convertedAmount : ℚ
  convertedCurrency : Currency
  exchangeRate : ℚ
  conversionDate : Int
deriving DecidableEq

structure ThirtyDayRuleResult where
  applies : Bool
  daysBetween : Int
  vestingDate : Int
  saleDate : Int
  reason : String
deriving DecidableEq

structure CgtDiscountResult where
  eligible : Bool
  holdingPeriodDays : Int
  discountRate : ℚ
  grossCapitalGain : ℚ
  discountedCapitalGain : ℚ
deriving DecidableEq

/-- The `calculation` breakdown of a `TaxableIncomeResult`. -/
structure VestingCalcBreakdown where
  marketValue : ℚ
  costBase : ℚ
  sharesVested : ℚ
  sharePrice : ℚ
deriving DecidableEq

/-- One entry of the reconciler's `saleEvents` output list. -/
structure ProcessedSaleEvent where
  saleEvent : ShareSaleEvent
  thirtyDayRule : ThirtyDayRuleResult
  adjustedTaxableIncome : ℚ
deriving DecidableEq

structure TaxableIncomeResult where
  taxableIncome : ℚ
  currency : Currency
  calculation : VestingCalcBreakdown
  saleEvents : Option (List ProcessedSaleEvent)
  remainingShares : ℚ
deriving DecidableEq

/-- The `calculation` breakdown of a `CapitalGainsResult`. -/
structure SaleCalcBreakdown where
  grossProceeds : ℚ
  totalFees : ℚ
  costBase : ℚ
  sharesSold : ℚ
  salePricePerShare : ℚ
deriving DecidableEq

inductive AppliedRule
  | thirtyDay
  | standardCgt
  | noRule
deriving DecidableEq

structure CapitalGainsResult where
  capitalGain : ℚ
  isGain : Bool
  costBase : ℚ
  saleProceeds : ℚ
  netProceeds : ℚ
  currency : Currency
  appliedRule : AppliedRule
  cgtDiscount : CgtDiscountResult
  calculation : SaleCalcBreakdown
deriving DecidableEq

/-- The result shape of the earlier single-argument
`calculateRsuVestingTaxableIncome` (the version `processVestingAndSale`
calls internally). -/
structure SimpleTaxResult where
  taxableIncome : ℚ
  currency : Currency
  calculation : VestingCalcBreakdown
deriving DecidableEq

structure CombinedTaxResult where
  taxableIncome : ℚ
  capitalGain : ℚ
  thirtyDayRuleApplied : Bool
  currency : Currency
  vestingResult : Option SimpleTaxResult
  saleResult : CapitalGainsResult
deriving DecidableEq

/-- `checkThirtyDayRule(vestingDate, saleDate)`: throws when the sale
precedes vesting, otherwise floors the millisecond difference divided by a
day length; the rule applies when that is at most 30. -/
def checkThirtyDayRule (vestingDate saleDate : Int) :
    Except EssError ThirtyDayRuleResult :=
  if saleDate < vestingDate then .error .saleBeforeVesting
  else
    let daysBetween : Int := (saleDate - vestingDate).fdiv msPerDay
    let applies : Bool := decide (daysBetween ≤ 30)
    .ok
      { applies := applies
        daysBetween := daysBetween
        vestingDate := vestingDate
        saleDate := saleDate
        reason :=
          if applies then
            "Sale occurred within 30 days of vesting (" ++
              toString daysBetween ++ " days)"
          else
            "Sale occurred after 30-day period (" ++
              toString daysBetween ++ " days)" }

/-- `calculateCgtDiscount(acquisitionDate, saleDate, grossCapitalGain)`. -/
def calculateCgtDiscount (acquisitionDate saleDate : Int)
    (grossCapitalGain : ℚ) : Except EssError CgtDiscountResult :=
  if saleDate < acquisitionDate then .error .saleBeforeAcquisition
  else
    let holdingPeriodDays : Int := (saleDate - acquisitionDate).fdiv msPerDay
    let eligible : Bool := decide (365 < holdingPeriodDays)
    let discountRate : ℚ :=
      if eligible ∧ 0 < grossCapitalGain then 1 / 2 else 0
    .ok
      { eligible := eligible
        holdingPeriodDays := holdingPeriodDays
        discountRate := discountRate
        grossCapitalGain := grossCapitalGain
        discountedCapitalGain := round2 (grossCapitalGain * (1 - discountRate)) }

/-- `convertUsdToAud(usdAmount, exchangeRate, conversionDate)`. -/
def convertUsdToAud (usdAmount exchangeRate : ℚ) (conversionDate : Int) :
    Except EssError CurrencyConversionResult :=
  if usdAmount < 0 then .error .amountNegative
  else if exchangeRate ≤ 0 then .error .rateNonPositive
  else
    .ok
      { originalAmount := usdAmount
        originalCurrency := .USD
        convertedAmount := round2 (usdAmount / exchangeRate)
        convertedCurrency := .AUD
        exchangeRate := exchangeRate
        conversionDate := conversionDate }

/-- `convertShareEventValue(sharePrice, quantity, sourceCurrency,
targetCurrency, exchangeRate?, conversionDate?)`.  The source reads
`new Date().toISOString().split('T')[0]` when the currencies match and no
conversion date is supplied; that ambient clock value is made explicit as
the extra argument `now`. -/
def convertShareEventValue (sharePrice quantity : ℚ)
    (sourceCurrency targetCurrency : Currency) (exchangeRate : Option ℚ)
    (conversionDate : Option Int) (now : Int) :
    Except EssError CurrencyConversionResult :=
  let originalAmount := sharePrice * quantity
  if sourceCurrency = targetCurrency then
    .ok
      { originalAmount := originalAmount
        originalCurrency := sourceCurrency
        convertedAmount := originalAmount
        convertedCurrency := targetCurrency
        exchangeRate := 1
        conversionDate := conversionDate.getD now }
  else if ¬ truthy exchangeRate then .error .exchangeRateRequiredConversion
  else
    match conversionDate with
    | none => .error .conversionDateRequired
    | some d =>
      if sourceCurrency = .USD ∧ targetCurrency = .AUD then
        convertUsdToAud originalAmount (rateVal exchangeRate) d
      else .error .unsupportedConversion

/-- The baseline taxable income computed before any sale processing
(lines computing `taxableIncome` from market value, cost base and the
optional USD→AUD conversion). -/
def baselineIncome (event : VestingEvent) : ℚ :=
  let costBase := event.costBase.getD 0
  let taxableIncomeOriginal := event.sharePrice * event.sharesVested - costBase
  if event.currency = .USD ∧ truthy event.exchangeRate then
    taxableIncomeOriginal / rateVal event.exchangeRate
  else taxableIncomeOriginal

/-- The `resultCurrency` chosen alongside the baseline income. -/
def resultCurrencyOf (event : VestingEvent) : Currency :=
  if event.currency = .USD ∧ truthy event.exchangeRate then .AUD
  else event.currency

/-- The body of the reconciler's `thirtyDayRule.applies` branch: the sale
re-characterized income `saleProceedsAud - costBase * (sharesSold /
sharesVested) - totalFeesAud`, with USD proceeds and fees rounded at the
point of conversion. -/
def thirtyDaySaleIncome (costBase sharesVested : ℚ) (s : ShareSaleEvent) :
    Except EssError ℚ :=
  let brokerageCommission := s.brokerageCommission.getD 0
  let supplementalFees := s.supplementalFees.getD 0
  let conv : Except EssError (ℚ × ℚ) :=
    if s.currency = .USD ∧ truthy s.exchangeRate then
      .ok
        (round2 ((s.sharesSold * s.salePricePerShare) / rateVal s.exchangeRate),
         round2 ((brokerageCommission + supplementalFees) / rateVal s.exchangeRate))
    else if s.currency = .AUD then
      .ok (s.sharesSold * s.salePricePerShare,
        brokerageCommission + supplementalFees)
    else .error .exchangeRateRequired30Day
  conv.map fun p =>
    p.1 - costBase * (s.sharesSold / sharesVested) - p.2

/-- Stable insertion keeping earlier-dated sales first; equal dates keep
the inserted (originally earlier) element first, matching the stable
`Array.prototype.sort` comparator on `getTime()`. -/
def insertBySaleDate (s : ShareSaleEvent) :
    List ShareSaleEvent → List ShareSaleEvent
  | [] => [s]
  | t :: ts =>
    if s.saleDate ≤ t.saleDate then s :: t :: ts
    else t :: insertBySaleDate s ts

/-- The `[...saleEvents].sort((a, b) => aTime - bTime)` step. -/
def sortBySaleDate : List ShareSaleEvent → List ShareSaleEvent
  | [] => []
  | s :: ss => insertBySaleDate s (sortBySaleDate ss)

/-- The reconciler's `for (const saleEvent of sortedSales)` loop.  The
mutable variables `adjustedTaxableIncome`, `totalSharesSold` and the
`processedSaleEvents` array become the accumulator arguments `adj`,
`total` and `acc`; `taxableIncome` stays the fixed baseline. -/
def processSales (vestDate : Int) (costBase sharesVested taxableIncome : ℚ) :
    List ShareSaleEvent → ℚ → ℚ → List ProcessedSaleEvent →
    Except EssError (ℚ × ℚ × List ProcessedSaleEvent)
  | [], adj, total, acc => .ok (adj, total, acc)
  | s :: rest, adj, total, acc =>
    if sharesVested < total + s.sharesSold then .error .overAllocation
    else
      match checkThirtyDayRule vestDate s.saleDate with
      | .error e => .error e
      | .ok tdr =>
        if tdr.applies then
          match thirtyDaySaleIncome costBase sharesVested s with
          | .error e => .error e
          | .ok saleAdjustedIncome =>
            processSales vestDate costBase sharesVested taxableIncome rest
              (adj - taxableIncome * (s.sharesSold / sharesVested) +
                saleAdjustedIncome)
              (total + s.sharesSold)
              (acc ++ [⟨s, tdr, saleAdjustedIncome⟩])
        else
          processSales vestDate costBase sharesVested taxableIncome rest
            adj (total + s.sharesSold) (acc ++ [⟨s, tdr, 0⟩])

/-- The multi-sale reconciler `calculateRsuVestingTaxableIncome(event,
saleEvents?)`.  An omitted or empty `saleEvents` argument is modelled as
the empty list (the source's guard `saleEvents && saleEvents.length > 0`
makes the two indistinguishable). -/
def calculateRsuVestingTaxableIncome (event : VestingEvent)
    (saleEvents : List ShareSaleEvent) : Except EssError TaxableIncomeResult :=
  let costBase := event.costBase.getD 0
  if event.currency = .USD ∧ ¬ truthy event.exchangeRate then
    .error .exchangeRateRequiredVesting
  else
    let marketValue := event.sharePrice * event.sharesVested
    let taxableIncome := baselineIncome event
    match processSales event.vestDate costBase event.sharesVested
        taxableIncome (sortBySaleDate saleEvents) taxableIncome 0 [] with
    | .error e => .error e
    | .ok (adjustedTaxableIncome, totalSharesSold, processed) =>
      .ok
        { taxableIncome := adjustedTaxableIncome
          currency := resultCurrencyOf event
          calculation :=
            { marketValue := marketValue
              costBase := costBase
              sharesVested := event.sharesVested
              sharePrice := event.sharePrice }
          saleEvents := if processed = [] then none else some processed
          remainingShares := event.sharesVested - totalSharesSold }

/-- The list carried by the reconciler result's optional `saleEvents`
field (empty when the field is absent). -/
def saleEventsList (res : TaxableIncomeResult) : List ProcessedSaleEvent :=
  res.saleEvents.getD []

/-- The earlier single-argument `calculateRsuVestingTaxableIncome(event)`
used internally by `processVestingAndSale`. -/
def calculateRsuVestingTaxableIncomeSingle (event : VestingEvent) :
    Except EssError SimpleTaxResult :=
  let costBase := event.costBase.getD 0
  if event.currency = .USD ∧ ¬ truthy event.exchangeRate then
    .error .exchangeRateRequiredVesting
  else
    let marketValue := event.sharePrice * event.sharesVested
    let taxableIncomeOriginal := marketValue - costBase
    let taxableIncome :=
      if event.currency = .USD ∧ truthy event.exchangeRate then
        taxableIncomeOriginal / rateVal event.exchangeRate
      else taxableIncomeOriginal
    .ok
      { taxableIncome := taxableIncome
        currency := resultCurrencyOf event
        calculation :=
          { marketValue := marketValue
            costBase := costBase
            sharesVested := event.sharesVested
            sharePrice := event.sharePrice } }

/-- `calculateCapitalGains(saleEvent, costBase, acquisitionDate?)`. -/
def calculateCapitalGains (saleEvent : ShareSaleEvent) (costBase : ℚ)
    (acquisitionDate : Option Int) : Except EssError CapitalGainsResult :=
  let brokerageCommission := saleEvent.brokerageCommission.getD 0
  let supplementalFees := saleEvent.supplementalFees.getD 0
  if saleEvent.currency = .USD ∧ ¬ truthy saleEvent.exchangeRate then
    .error .exchangeRateRequiredUsdSales
  else
    let grossProceeds := saleEvent.sharesSold * saleEvent.salePricePerShare
    let totalFees := brokerageCommission + supplementalFees
    let saleProceedsAud :=
      if saleEvent.currency = .USD ∧ truthy saleEvent.exchangeRate then
        round2 (grossProceeds / rateVal saleEvent.exchangeRate)
      else grossProceeds
    let totalFeesAud :=
      if saleEvent.currency = .USD ∧ truthy saleEvent.exchangeRate then
        round2 (totalFees / rateVal saleEvent.exchangeRate)
      else totalFees
    let netProceeds := saleProceedsAud - totalFeesAud
    let grossCapitalGain := netProceeds - costBase
    let cgtDiscountE : Except EssError CgtDiscountResult :=
      match acquisitionDate <|> saleEvent.acquisitionDate with
      | some a => calculateCgtDiscount a saleEvent.saleDate grossCapitalGain
      | none =>
        .ok
          { eligible := false
            holdingPeriodDays := 0
            discountRate := 0
            grossCapitalGain := grossCapitalGain
            discountedCapitalGain := grossCapitalGain }
    match cgtDiscountE with
    | .error e => .error e
    | .ok cgtDiscount =>
      let finalCapitalGain := cgtDiscount.discountedCapitalGain
      .ok
        { capitalGain := round2 finalCapitalGain
          isGain := decide (0 < finalCapitalGain)
          costBase := costBase
          saleProceeds := saleProceedsAud
          netProceeds := round2 netProceeds
          currency := .AUD
          appliedRule := .standardCgt
          cgtDiscount := cgtDiscount
          calculation :=
            { grossProceeds :=
                if saleEvent.currency = .USD then grossProceeds
                else saleProceedsAud
              totalFees :=
                if saleEvent.currency = .USD then totalFees else totalFeesAud
              costBase := costBase
              sharesSold := saleEvent.sharesSold
              salePricePerShare := saleEvent.salePricePerShare } }

/-- A sale event the reconciler loop can process without throwing a
non-allocation error: its date is not before the vest date, and if the
30-day rule applies to it, it is AUD-denominated or carries a truthy
exchange rate. -/
def saleProcessable (vd : Int) (s : ShareSaleEvent) : Prop :=
  vd ≤ s.saleDate ∧
  ((s.saleDate - vd).fdiv msPerDay ≤ 30 →
    s.currency = .AUD ∨ truthy s.exchangeRate = true)

instance (vd : Int) (s : ShareSaleEvent) : Decidable (saleProcessable vd s) :=
  inferInstanceAs (Decidable (_ ∧ _))

/-- The per-entry income delta the reconciler accumulates for one
processed sale: the 30-day re-characterized income minus the removed
proportional share of the baseline, and 0 when the rule does not apply. -/
def entryDelta (bi sharesVested : ℚ) (e : ProcessedSaleEvent) : ℚ :=
  if e.thirtyDayRule.applies then
    e.adjustedTaxableIncome - bi * (e.saleEvent.sharesSold / sharesVested)
  else 0

/-- `processVestingAndSale(vestingEvent, saleEvent)`: the single-sale
combinator of the earlier module version. -/
def processVestingAndSale (vestingEvent : VestingEvent)
    (saleEvent : ShareSaleEvent) : Except EssError CombinedTaxResult :=
  if vestingEvent.sharesVested < saleEvent.sharesSold then
    .error .overAllocation
  else
    match checkThirtyDayRule vestingEvent.vestDate saleEvent.saleDate with
    | .error e => .error e
    | .ok thirtyDayRule =>
      if thirtyDayRule.applies then
        let brokerageCommission := saleEvent.brokerageCommission.getD 0
        let supplementalFees := saleEvent.supplementalFees.getD 0
        if saleEvent.currency = .USD ∧ ¬ truthy saleEvent.exchangeRate then
          .error .exchangeRateRequired30Day
        else
          let grossProceedsAud :=
            if saleEvent.currency = .USD ∧ truthy saleEvent.exchangeRate then
              round2 ((saleEvent.sharesSold * saleEvent.salePricePerShare) /
                rateVal saleEvent.exchangeRate)
            else saleEvent.sharesSold * saleEvent.salePricePerShare
          let totalFeesAud :=
            if saleEvent.currency = .USD ∧ truthy saleEvent.exchangeRate then
              round2 ((brokerageCommission + supplementalFees) /
                rateVal saleEvent.exchangeRate)
            else brokerageCommission + supplementalFees
          let costBase := vestingEvent.costBase.getD 0
          let taxableIncome := grossProceedsAud - costBase - totalFeesAud
          .ok
            { taxableIncome := round2 taxableIncome
              capitalGain := 0
              thirtyDayRuleApplied := true
              currency := .AUD
              vestingResult := none
              saleResult :=
                { capitalGain := 0
                  isGain := false
                  costBase := costBase
                  saleProceeds := grossProceedsAud
                  netProceeds := grossProceedsAud - totalFeesAud
                  currency := .AUD
                  appliedRule := .thirtyDay
                  cgtDiscount :=
                    { eligible := false
                      holdingPeriodDays := 0
                      discountRate := 0
                      grossCapitalGain := 0
                      discountedCapitalGain := 0 }
                  calculation :=
                    { grossProceeds :=
                        if saleEvent.currency = .USD then
                          saleEvent.sharesSold * saleEvent.salePricePerShare
                        else grossProceedsAud
                      totalFees :=
                        if saleEvent.currency = .USD then
                          brokerageCommission + supplementalFees
                        else totalFeesAud
                      costBase := costBase
                      sharesSold := saleEvent.sharesSold
                      salePricePerShare := saleEvent.salePricePerShare } } }
      else
        match calculateRsuVestingTaxableIncomeSingle vestingEvent with
        | .error e => .error e
        | .ok vestingResult =>
          let vestingValuePerShare :=
            vestingResult.taxableIncome / vestingEvent.sharesVested
          let costBaseForSoldShares :=
            vestingValuePerShare * saleEvent.sharesSold
          match calculateCapitalGains saleEvent costBaseForSoldShares
              (some vestingEvent.vestDate) with
          | .error e => .error e
          | .ok saleResult =>
            .ok
              { taxableIncome := vestingResult.taxableIncome
                capitalGain := saleResult.capitalGain
                thirtyDayRuleApplied := false
                currency := .AUD
                vestingResult := some vestingResult
                saleResult := saleResult }

/-- Example vesting event: 10 shares at 5 AUD, zero cost base. -/
def vestC1 : VestingEvent :=
  { vestDate := 0, sharePrice := 5, sharesVested := 10, currency := .AUD }

/-- Example sale: 4 of the 10 shares sold on the vest day at 6 AUD. -/
def saleC1 : ShareSaleEvent :=
  { saleDate := 0, sharesSold := 4, salePricePerShare := 6, currency := .AUD }

/-- The reconciler output for `vestC1` with the single sale `saleC1`. -/
def resC1 : TaxableIncomeResult :=
  { taxableIncome := 54
    currency := .AUD
    calculation :=
      { marketValue := 50, costBase := 0, sharesVested := 10, sharePrice := 5 }
    saleEvents := some
      [⟨saleC1,
        { applies := true, daysBetween := 0, vestingDate := 0, saleDate := 0,
          reason := "Sale occurred within 30 days of vesting (0 days)" },
        24⟩]
    remainingShares := 6 }

/-- Example vesting event: 2 shares at 3 AUD. -/
def vestC6 : VestingEvent :=
  { vestDate := 0, sharePrice := 3, sharesVested := 2, currency := .AUD }

/-- Example sale 40 days after vesting: 1 share at 4 AUD. -/
def saleC6 : ShareSaleEvent :=
  { saleDate := 40 * msPerDay, sharesSold := 1, salePricePerShare := 4,
    currency := .AUD }

/-- The reconciler output for `vestC6` with the single sale `saleC6`. -/
def resC6 : TaxableIncomeResult :=
  { taxableIncome := 6
    currency := .AUD
    calculation :=
      { marketValue := 6, costBase := 0, sharesVested := 2, sharePrice := 3 }
    saleEvents := some
      [⟨saleC6,
        { applies := false, daysBetween := 40, vestingDate := 0,
          saleDate := 40 * msPerDay,
          reason := "Sale occurred after 30-day period (40 days)" },
        0⟩]
    remainingShares := 1 }

/-- Example vesting event with a single vested share. -/
def vestC7 : VestingEvent :=
  { vestDate := 0, sharePrice := 1, sharesVested := 1, currency := .AUD }

/-- A sale dated one day before the vest date. -/
def saleC7pre : ShareSaleEvent :=
  { saleDate := -msPerDay, sharesSold := 1, salePricePerShare := 1,
    currency := .AUD }

/-- A sale on the vest date. -/
def saleC7at : ShareSaleEvent :=
  { saleDate := 0, sharesSold := 1, salePricePerShare := 1, currency := .AUD }

/-- A second sale on the vest date. -/
def saleC7at2 : ShareSaleEvent :=
  { saleDate := 0, sharesSold := 1, salePricePerShare := 2, currency := .AUD }

/-- Vesting of 2 shares at 10 AUD with a 2 AUD cost base. -/
def vestC2 : VestingEvent :=
  { vestDate := 0, sharePrice := 10, sharesVested := 2, costBase := some 2,
    currency := .AUD }

/-- Same-day sale of 1 of the 2 shares of `vestC2` at 10 AUD. -/
def saleC2 : ShareSaleEvent :=
  { saleDate := 0, sharesSold := 1, salePricePerShare := 10,
    currency := .AUD }

/-- Same-day sale of all 10 shares of `vestC1` at 6 AUD. -/
def saleC2full : ShareSaleEvent :=
  { saleDate := 0, sharesSold := 10, salePricePerShare := 6,
    currency := .AUD }

/-- Vesting of 1 share at the fractional AUD price 10.004. -/
def vestC5 : VestingEvent :=
  { vestDate := 0, sharePrice := 2501 / 250, sharesVested := 1,
    currency := .AUD }

/-- AUD vesting of 10 shares at 5. -/
def vestC10 : VestingEvent :=
  { vestDate := 0, sharePrice := 5, sharesVested := 10, currency := .AUD }

/-- USD sale 31 days after vesting with no exchange rate. -/
def saleC10 : ShareSaleEvent :=
  { saleDate := 31 * msPerDay, sharesSold := 1, salePricePerShare := 10,
    currency := .USD }

/-- USD sale on the vest date with no exchange rate. -/
def saleC10in : ShareSaleEvent :=
  { saleDate := 0, sharesSold := 1, salePricePerShare := 10,
    currency := .USD }

/-- USD vesting with no exchange rate. -/
def vestUsdNoRate : VestingEvent :=
  { vestDate := 0, sharePrice := 5, sharesVested := 10, currency := .USD }

/-- Inserting preserves the sum of any rational-valued projection. -/
theorem insertBySaleDate_map_sum (f : ShareSaleEvent → ℚ) (s : ShareSaleEvent) :
    ∀ l : List ShareSaleEvent,
      ((insertBySaleDate s l).map f).sum = f s + (l.map f).sum
  | [] => by simp [insertBySaleDate]
  | t :: ts => by
    by_cases h : s.saleDate ≤ t.saleDate
    · simp [insertBySaleDate, h]
    · simp only [insertBySaleDate, if_neg h, List.map_cons, List.sum_cons,
        insertBySaleDate_map_sum f s ts]
      ring

/-- Sorting by sale date preserves the sum of any rational-valued
projection. -/
theorem sortBySaleDate_map_sum (f : ShareSaleEvent → ℚ) :
    ∀ l : List ShareSaleEvent, ((sortBySaleDate l).map f).sum = (l.map f).sum
  | [] => rfl
  | s :: ss => by
    simp [sortBySaleDate, insertBySaleDate_map_sum,
      sortBySaleDate_map_sum f ss]

theorem mem_insertBySaleDate (x s : ShareSaleEvent) :
    ∀ l : List ShareSaleEvent, x ∈ insertBySaleDate s l ↔ x = s ∨ x ∈ l
  | [] => by simp [insertBySaleDate]
  | t :: ts => by
    by_cases h : s.saleDate ≤ t.saleDate
    · simp [insertBySaleDate, h]
    · simp only [insertBySaleDate, if_neg h, List.mem_cons,
        mem_insertBySaleDate x s ts]
      tauto

theorem mem_sortBySaleDate (x : ShareSaleEvent) :
    ∀ l : List ShareSaleEvent, x ∈ sortBySaleDate l ↔ x ∈ l
  | [] => Iff.rfl
  | s :: ss => by
    simp [sortBySaleDate, mem_insertBySaleDate, mem_sortBySaleDate x ss]

/-- Master characterization of a successful run of the reconciler loop:
the processed entries extend the accumulator one-for-one with the input
sales, the accumulated income is the starting income plus the per-entry
deltas, the share total is the starting total plus the shares sold, and
each entry records its own thirty-day evaluation and (when the rule
applies) the re-characterized income of its sale. -/
theorem processSales_ok (vd : Int) (cb S bi : ℚ) :
    ∀ (l : List ShareSaleEvent) (adj total : ℚ)
      (acc : List ProcessedSaleEvent) (a t : ℚ)
      (p : List ProcessedSaleEvent),
      processSales vd cb S bi l adj total acc = .ok (a, t, p) →
      ∃ q, p = acc ++ q ∧
        q.map (fun e => e.saleEvent) = l ∧
        a = adj + (q.map (entryDelta bi S)).sum ∧
        t = total + (q.map (fun e => e.saleEvent.sharesSold)).sum ∧
        ∀ e ∈ q,
          checkThirtyDayRule vd e.saleEvent.saleDate = .ok e.thirtyDayRule ∧
          (e.thirtyDayRule.applies = true →
            thirtyDaySaleIncome cb S e.saleEvent = .ok e.adjustedTaxableIncome) ∧
          (e.thirtyDayRule.applies = false → e.adjustedTaxableIncome = 0)
  | [], adj, total, acc, a, t, p => by
    intro h
    simp only [processSales, Except.ok.injEq, Prod.mk.injEq] at h
    obtain ⟨ha, ht, hp⟩ := h
    exact ⟨[], by simp [ha, ht, hp.symm]⟩
  | s :: rest, adj, total, acc, a, t, p => by
    intro h
    simp only [processSales] at h
    split at h
    · exact absurd h (by simp)
    · split at h
      · exact absurd h (by simp)
      · rename_i tdr hc
        by_cases ha : tdr.applies
        · rw [if_pos ha] at h
          split at h
          · exact absurd h (by simp)
          · rename_i inc hinc
            obtain ⟨q, hq, hmap, hA, hT, hall⟩ :=
              processSales_ok vd cb S bi rest
                (adj - bi * (s.sharesSold / S) + inc) (total + s.sharesSold)
                (acc ++ [⟨s, tdr, inc⟩]) a t p h
            refine ⟨⟨s, tdr, inc⟩ :: q, by simp [hq], by simp [hmap], ?_, ?_, ?_⟩
            · simp only [List.map_cons, List.sum_cons, hA, entryDelta, ha,
                if_pos]
              ring
            · simp only [List.map_cons, List.sum_cons, hT]
              ring
            · intro e he
              rcases List.mem_cons.mp he with rfl | he
              · exact ⟨hc, fun _ => hinc, fun hf => by simp [ha] at hf⟩
              · exact hall e he
        · rw [if_neg ha] at h
          obtain ⟨q, hq, hmap, hA, hT, hall⟩ :=
            processSales_ok vd cb S bi rest adj (total + s.sharesSold)
              (acc ++ [⟨s, tdr, 0⟩]) a t p h
          refine ⟨⟨s, tdr, 0⟩ :: q, by simp [hq], by simp [hmap], ?_, ?_, ?_⟩
          · have ha2 : tdr.applies = false := by
              simpa using ha
            simp only [List.map_cons, List.sum_cons, hA, entryDelta, ha2]
            simp
          · simp only [List.map_cons, List.sum_cons, hT]
            ring
          · intro e he
            rcases List.mem_cons.mp he with rfl | he
            · exact ⟨hc, fun hf => by simp [ha] at hf, fun _ => rfl⟩
            · exact hall e he

theorem checkThirtyDayRule_error {vd d : Int} {e : EssError}
    (h : checkThirtyDayRule vd d = .error e) : d < vd := by
  unfold checkThirtyDayRule at h
  split at h
  · assumption
  · simp at h

theorem checkThirtyDayRule_ok_inv {vd d : Int} {tdr : ThirtyDayRuleResult}
    (h : checkThirtyDayRule vd d = .ok tdr) :
    vd ≤ d ∧ tdr.daysBetween = (d - vd).fdiv msPerDay ∧
      tdr.applies = decide ((d - vd).fdiv msPerDay ≤ 30) := by
  unfold checkThirtyDayRule at h
  split at h
  · simp at h
  · rename_i hlt
    simp only [Except.ok.injEq] at h
    subst h
    exact ⟨by omega, rfl, rfl⟩

theorem thirtyDaySaleIncome_aud {cb S : ℚ} {s : ShareSaleEvent}
    (h : s.currency = .AUD) :
    thirtyDaySaleIncome cb S s =
      .ok (s.sharesSold * s.salePricePerShare - cb * (s.sharesSold / S) -
        (s.brokerageCommission.getD 0 + s.supplementalFees.getD 0)) := by
  simp [thirtyDaySaleIncome, h, Except.map]

theorem thirtyDaySaleIncome_usd {cb S : ℚ} {s : ShareSaleEvent}
    (h : s.currency = .USD) (ht : truthy s.exchangeRate = true) :
    thirtyDaySaleIncome cb S s =
      .ok (round2 ((s.sharesSold * s.salePricePerShare) /
            rateVal s.exchangeRate) -
          cb * (s.sharesSold / S) -
          round2 ((s.brokerageCommission.getD 0 + s.supplementalFees.getD 0) /
            rateVal s.exchangeRate)) := by
  simp [thirtyDaySaleIncome, h, ht, Except.map]

theorem thirtyDaySaleIncome_usd_err {cb S : ℚ} {s : ShareSaleEvent}
    (h : s.currency = .USD) (ht : truthy s.exchangeRate = false) :
    thirtyDaySaleIncome cb S s = .error .exchangeRateRequired30Day := by
  simp [thirtyDaySaleIncome, h, ht, Except.map]

/-- If every sale of the list is individually processable and the list
overallocates the remaining budget, the loop throws `overAllocation`. -/
theorem processSales_overalloc (vd : Int) (cb S bi : ℚ) :
    ∀ (l : List ShareSaleEvent) (adj total : ℚ)
      (acc : List ProcessedSaleEvent),
      (∀ s ∈ l, saleProcessable vd s) → total ≤ S →
      S < total + (l.map (fun s => s.sharesSold)).sum →
      processSales vd cb S bi l adj total acc = .error .overAllocation
  | [], adj, total, acc => by
    intro _ hts hlt
    simp only [List.map_nil, List.sum_nil, add_zero] at hlt
    exact absurd hlt (not_lt.mpr hts)
  | s :: rest, adj, total, acc => by
    intro hall hts hlt
    have hs := hall s (List.mem_cons_self s rest)
    simp only [processSales]
    by_cases hover : S < total + s.sharesSold
    · rw [if_pos hover]
    · rw [if_neg hover]
      have hrest : ∀ x ∈ rest, saleProcessable vd x :=
        fun x hx => hall x (List.mem_cons_of_mem s hx)
      have hts2 : total + s.sharesSold ≤ S := not_lt.mp hover
      have hlt2 : S < total + s.sharesSold +
          (rest.map (fun x => x.sharesSold)).sum := by
        simp only [List.map_cons, List.sum_cons] at hlt
        linarith
      cases hok : checkThirtyDayRule vd s.saleDate with
      | error e =>
        exact absurd (checkThirtyDayRule_error hok) (not_lt.mpr hs.1)
      | ok tdr =>
        dsimp only
        by_cases ha : tdr.applies
        · rw [if_pos ha]
          have happ : (s.saleDate - vd).fdiv msPerDay ≤ 30 := by
            have hinv := checkThirtyDayRule_ok_inv hok
            rw [hinv.2.2] at ha
            exact of_decide_eq_true ha
          cases hcur : s.currency with
          | AUD =>
            rw [thirtyDaySaleIncome_aud hcur]
            exact processSales_overalloc vd cb S bi rest _ _ _
              hrest hts2 hlt2
          | USD =>
            have ht : truthy s.exchangeRate = true := by
              rcases hs.2 happ with hAud | ht
              · rw [hcur] at hAud; exact absurd hAud (by simp)
              · exact ht
            rw [thirtyDaySaleIncome_usd hcur ht]
            exact processSales_overalloc vd cb S bi rest _ _ _
              hrest hts2 hlt2
        · rw [if_neg ha]
          exact processSales_overalloc vd cb S bi rest _ _ _
            hrest hts2 hlt2


theorem calc_ok_elim {ev : VestingEvent} {sales : List ShareSaleEvent}
    {res : TaxableIncomeResult}
    (h : calculateRsuVestingTaxableIncome ev sales = .ok res) :
    ∃ a t p, processSales ev.vestDate (ev.costBase.getD 0) ev.sharesVested
        (baselineIncome ev) (sortBySaleDate sales) (baselineIncome ev) 0 [] =
        .ok (a, t, p) ∧
      res.taxableIncome = a ∧ res.remainingShares = ev.sharesVested - t ∧
      saleEventsList res = p ∧ res.currency = resultCurrencyOf ev := by
  unfold calculateRsuVestingTaxableIncome at h
  split at h
  · simp at h
  · dsimp only at h
    split at h
    · simp at h
    · rename_i a t p hps
      simp only [Except.ok.injEq] at h
      subst h
      refine ⟨a, t, p, hps, rfl, rfl, ?_, rfl⟩
      by_cases hp : p = [] <;> simp [saleEventsList, hp]

theorem single_ok {ev : VestingEvent} {vr : SimpleTaxResult}
    (h : calculateRsuVestingTaxableIncomeSingle ev = .ok vr) :
    vr.taxableIncome = baselineIncome ev := by
  unfold calculateRsuVestingTaxableIncomeSingle at h
  split at h
  · simp at h
  · simp only [Except.ok.injEq] at h
    subst h
    rfl

/-- C1: in the multi-sale reconciler, each sale event to which the 30-day
rule applies contributes the delta `saleAdjustedIncome - baselineIncome ×
(sharesSold / sharesVested)` to the running taxable income, where its
`saleAdjustedIncome` (recorded in the per-sale sub-result) equals
`saleProceeds(reporting) - costBase × (sharesSold / sharesVested) -
saleFees(reporting)` as computed by `thirtyDaySaleIncome`; sales to which
the rule does not apply contribute no adjustment (their recorded delta
income is 0). -/
theorem reconciler_income_is_baseline_plus_thirty_day_deltas
    (ev : VestingEvent) (sales : List ShareSaleEvent)
    (res : TaxableIncomeResult)
    (h : calculateRsuVestingTaxableIncome ev sales = .ok res) :
    res.taxableIncome = baselineIncome ev +
      ((saleEventsList res).map
        (entryDelta (baselineIncome ev) ev.sharesVested)).sum ∧
    ∀ e ∈ saleEventsList res,
      (e.thirtyDayRule.applies = true →
        thirtyDaySaleIncome (ev.costBase.getD 0) ev.sharesVested e.saleEvent =
          .ok e.adjustedTaxableIncome) ∧
      (e.thirtyDayRule.applies = false → e.adjustedTaxableIncome = 0) := by
  obtain ⟨a, t, p, hps, hti, hrem, hse, hcur⟩ := calc_ok_elim h
  obtain ⟨q, hq, hmap, hA, hT, hall⟩ :=
    processSales_ok _ _ _ _ _ _ _ _ _ _ _ hps
  simp only [List.nil_append] at hq
  subst hq
  constructor
  · rw [hti, hse]
    exact hA
  · rw [hse]
    intro e he
    exact ⟨(hall e he).2.1, (hall e he).2.2⟩

/-- Witness for C1: a same-day sale of 4 of 10 vested shares; the rule
applies and the result income 54 decomposes as baseline 50 plus the delta
24 - 50 × (4/10). -/
theorem reconciler_income_is_baseline_plus_thirty_day_deltas_witness :
    calculateRsuVestingTaxableIncome vestC1 [saleC1] = .ok resC1 ∧
    resC1.taxableIncome = baselineIncome vestC1 +
      ((saleEventsList resC1).map
        (entryDelta (baselineIncome vestC1) vestC1.sharesVested)).sum :=
  have h : calculateRsuVestingTaxableIncome vestC1 [saleC1] = .ok resC1 := by
    with_unfolding_all rfl
  ⟨h, (reconciler_income_is_baseline_plus_thirty_day_deltas vestC1 [saleC1]
    resC1 h).1⟩

/-- C6: for a sale list summing to `k ≤ sharesVested` shares on which the
reconciler succeeds, `remainingShares` is exactly `sharesVested - k`. -/
theorem reconciler_remaining_shares_conservation
    (ev : VestingEvent) (sales : List ShareSaleEvent) (k : ℚ)
    (hsum : (sales.map (fun s => s.sharesSold)).sum = k)
    (hk : k ≤ ev.sharesVested)
    (res : TaxableIncomeResult)
    (h : calculateRsuVestingTaxableIncome ev sales = .ok res) :
    res.remainingShares = ev.sharesVested - k := by
  obtain ⟨a, t, p, hps, hti, hrem, hse, hcur⟩ := calc_ok_elim h
  obtain ⟨q, hq, hmap, hA, hT, hall⟩ :=
    processSales_ok _ _ _ _ _ _ _ _ _ _ _ hps
  have ht2 : t = k := by
    rw [hT, zero_add,
      show q.map (fun e => e.saleEvent.sharesSold) =
        (q.map (fun e => e.saleEvent)).map (fun s => s.sharesSold) from by
          simp [List.map_map],
      hmap, sortBySaleDate_map_sum, hsum]
  rw [hrem, ht2]

/-- Witness for C6: one sale of 1 of 2 vested shares leaves exactly
1 remaining share. -/
theorem reconciler_remaining_shares_conservation_witness :
    ([saleC6].map (fun s => s.sharesSold)).sum = 1 ∧ (1:ℚ) ≤ 2 ∧
    calculateRsuVestingTaxableIncome vestC6 [saleC6] = .ok resC6 ∧
    resC6.remainingShares = vestC6.sharesVested - 1 :=
  have h : calculateRsuVestingTaxableIncome vestC6 [saleC6] = .ok resC6 := by
    with_unfolding_all rfl
  ⟨by with_unfolding_all rfl, by decide, h,
    reconciler_remaining_shares_conservation vestC6 [saleC6] 1
      (by with_unfolding_all rfl) (by decide) resC6 h⟩

/-- Counterexample for C7: a list whose cumulative shares (2) exceed the
vested shares (1) fails with the date-order error raised by its earlier,
pre-vest-dated sale, not with the over-allocation error. -/
theorem overallocation_error_preempted_by_date_error :
    calculateRsuVestingTaxableIncome vestC7 [saleC7pre, saleC7at] =
      .error .saleBeforeVesting ∧
    ([saleC7pre, saleC7at].map (fun s => s.sharesSold)).sum = 2 ∧
    vestC7.sharesVested = 1 ∧
    EssError.saleBeforeVesting ≠ EssError.overAllocation :=
  ⟨by with_unfolding_all rfl, by with_unfolding_all rfl, rfl, by decide⟩

/-- C7 amended: when the vesting event passes its exchange-rate guard,
`sharesVested` is non-negative and every sale is individually processable
(dated no earlier than the vest date; USD sales within 30 days carry a
truthy exchange rate), any sale list whose cumulative shares exceed
`sharesVested` is rejected with the over-allocation error, regardless of
the order in which the sales are given (the loop sorts them by date). -/
theorem reconciler_overallocation_rejection
    (ev : VestingEvent) (sales : List ShareSaleEvent)
    (hS : 0 ≤ ev.sharesVested)
    (hguard : ev.currency = .USD → truthy ev.exchangeRate = true)
    (hproc : ∀ s ∈ sales, saleProcessable ev.vestDate s)
    (hover : ev.sharesVested < (sales.map (fun s => s.sharesSold)).sum) :
    calculateRsuVestingTaxableIncome ev sales = .error .overAllocation := by
  unfold calculateRsuVestingTaxableIncome
  have hg : ¬(ev.currency = .USD ∧ ¬ truthy ev.exchangeRate = true) := by
    rintro ⟨h1, h2⟩
    exact h2 (hguard h1)
  rw [if_neg hg]
  dsimp only
  rw [processSales_overalloc ev.vestDate (ev.costBase.getD 0) ev.sharesVested
    (baselineIncome ev) (sortBySaleDate sales) (baselineIncome ev) 0 []
    (fun s hs => hproc s ((mem_sortBySaleDate s sales).mp hs)) hS
    (by rw [sortBySaleDate_map_sum, zero_add]; exact hover)]

/-- Witness for C7 amended: two same-day sales of 1 share each against a
single vested share are rejected with the over-allocation error. -/
theorem reconciler_overallocation_rejection_witness :
    (0:ℚ) ≤ vestC7.sharesVested ∧
    vestC7.sharesVested < ([saleC7at, saleC7at2].map
      (fun s => s.sharesSold)).sum ∧
    calculateRsuVestingTaxableIncome vestC7 [saleC7at, saleC7at2] =
      .error .overAllocation :=
  ⟨by decide, by with_unfolding_all decide,
    reconciler_overallocation_rejection vestC7 [saleC7at, saleC7at2]
      (by decide) (by decide) (by decide) (by with_unfolding_all decide)⟩

theorem map_eq_singleton {α β : Type} {f : α → β} {l : List α} {b : β}
    (h : l.map f = [b]) : ∃ a, l = [a] ∧ f a = b := by
  cases l with
  | nil => simp at h
  | cons x xs =>
    cases xs with
    | nil =>
      simp only [List.map_cons, List.map_nil, List.cons.injEq, and_true] at h
      exact ⟨x, rfl, h⟩
    | cons y ys => simp at h

/-- Counterexample for C2: for a partial same-day sale with a nonzero cost
base, `processVestingAndSale` yields 8 while the general reconciler on the
same single sale yields 18 (the combinator subtracts the full cost base
and rounds; the reconciler subtracts the proportional cost base and does
not round). -/
theorem processVestingAndSale_single_sale_mismatch :
    (processVestingAndSale vestC2 saleC2).map (fun r => r.taxableIncome) =
      .ok 8 ∧
    (calculateRsuVestingTaxableIncome vestC2 [saleC2]).map
      (fun r => r.taxableIncome) = .ok 18 ∧
    (8:ℚ) ≠ 18 :=
  ⟨by with_unfolding_all rfl, by with_unfolding_all rfl, by decide⟩

/-- C2 amended: given one sale event accepted by both operations, the
combinator and the general reconciler produce identical taxable income
when the 30-day rule does not apply; when it applies, the combinator
equals the reconciler's value rounded to 2 decimals provided the sale
disposes of all vested shares (for partial sales with a nonzero cost base
they differ: full versus proportional cost base, rounded versus exact). -/
theorem processVestingAndSale_vs_reconciler_agreement
    (v : VestingEvent) (s : ShareSaleEvent) :
    ((checkThirtyDayRule v.vestDate s.saleDate).map (fun r => r.applies) =
        .ok false →
      (processVestingAndSale v s).toOption.isSome = true →
      (calculateRsuVestingTaxableIncome v [s]).toOption.isSome = true →
      (processVestingAndSale v s).map (fun r => r.taxableIncome) =
        (calculateRsuVestingTaxableIncome v [s]).map
          (fun r => r.taxableIncome)) ∧
    ((checkThirtyDayRule v.vestDate s.saleDate).map (fun r => r.applies) =
        .ok true →
      s.sharesSold = v.sharesVested → v.sharesVested ≠ 0 →
      (processVestingAndSale v s).toOption.isSome = true →
      (calculateRsuVestingTaxableIncome v [s]).toOption.isSome = true →
      (processVestingAndSale v s).map (fun r => r.taxableIncome) =
        (calculateRsuVestingTaxableIncome v [s]).map
          (fun r => round2 r.taxableIncome)) := by
  constructor
  · intro hap hpv hrc
    cases hc : checkThirtyDayRule v.vestDate s.saleDate with
    | error e => rw [hc] at hap; simp [Except.map] at hap
    | ok tdr =>
      rw [hc] at hap
      simp only [Except.map, Except.ok.injEq] at hap
      cases hp : processVestingAndSale v s with
      | error e => rw [hp] at hpv; simp [Except.toOption] at hpv
      | ok c =>
        cases hr : calculateRsuVestingTaxableIncome v [s] with
        | error e => rw [hr] at hrc; simp [Except.toOption] at hrc
        | ok t =>
          simp only [Except.map, Except.ok.injEq]
          unfold processVestingAndSale at hp
          split at hp
          · simp at hp
          · rw [hc] at hp
            dsimp only at hp
            rw [if_neg (by simp [hap])] at hp
            split at hp
            · simp at hp
            · rename_i vr hvr
              split at hp
              · simp at hp
              · rename_i sr hsr
                simp only [Except.ok.injEq] at hp
                subst hp
                obtain ⟨a, t2, p, hps, hti, hrem, hse, hcur⟩ := calc_ok_elim hr
                obtain ⟨q, hq, hmap, hA, hT, hall⟩ :=
                  processSales_ok _ _ _ _ _ _ _ _ _ _ _ hps
                have hsort : sortBySaleDate [s] = [s] := rfl
                rw [hsort] at hmap
                obtain ⟨e, hqe, hes⟩ := map_eq_singleton hmap
                subst hqe
                have he := hall e (by simp)
                rw [hes] at he
                have hetdr : e.thirtyDayRule = tdr := by
                  have h1 := he.1
                  rw [hc] at h1
                  exact (Except.ok.inj h1).symm
                have hd : entryDelta (baselineIncome v) v.sharesVested e = 0 := by
                  simp [entryDelta, hetdr, hap]
                have h1 : t.taxableIncome = baselineIncome v := by
                  rw [hti, hA]
                  simp [hd]
                have h2 : vr.taxableIncome = baselineIncome v := single_ok hvr
                simp only [h1, h2]
  · intro hap hfull hS0 hpv hrc
    cases hc : checkThirtyDayRule v.vestDate s.saleDate with
    | error e => rw [hc] at hap; simp [Except.map] at hap
    | ok tdr =>
      rw [hc] at hap
      simp only [Except.map, Except.ok.injEq] at hap
      cases hp : processVestingAndSale v s with
      | error e => rw [hp] at hpv; simp [Except.toOption] at hpv
      | ok c =>
        cases hr : calculateRsuVestingTaxableIncome v [s] with
        | error e => rw [hr] at hrc; simp [Except.toOption] at hrc
        | ok t =>
          simp only [Except.map, Except.ok.injEq]
          unfold processVestingAndSale at hp
          split at hp
          · simp at hp
          · rw [hc] at hp
            dsimp only at hp
            rw [if_pos hap] at hp
            split at hp
            · simp at hp
            · rename_i hguard
              simp only [Except.ok.injEq] at hp
              subst hp
              obtain ⟨a, t2, p, hps, hti, hrem, hse, hcur⟩ := calc_ok_elim hr
              obtain ⟨q, hq, hmap, hA, hT, hall⟩ :=
                processSales_ok _ _ _ _ _ _ _ _ _ _ _ hps
              have hsort : sortBySaleDate [s] = [s] := rfl
              rw [hsort] at hmap
              obtain ⟨e, hqe, hes⟩ := map_eq_singleton hmap
              subst hqe
              have he := hall e (by simp)
              rw [hes] at he
              have hetdr : e.thirtyDayRule = tdr := by
                have h1 := he.1
                rw [hc] at h1
                exact (Except.ok.inj h1).symm
              have hinc : thirtyDaySaleIncome (v.costBase.getD 0)
                  v.sharesVested s = .ok e.adjustedTaxableIncome :=
                he.2.1 (by rw [hetdr, hap])
              have hfrac : s.sharesSold / v.sharesVested = 1 := by
                rw [hfull, div_self hS0]
              have hdelta : entryDelta (baselineIncome v) v.sharesVested e =
                  e.adjustedTaxableIncome - baselineIncome v := by
                simp [entryDelta, hetdr, hap, hes, hfrac]
              have h1 : t.taxableIncome = e.adjustedTaxableIncome := by
                rw [hti, hA]
                simp only [List.map_cons, List.map_nil, List.sum_cons,
                  List.sum_nil, add_zero, hdelta]
                ring
              cases hcurcase : s.currency with
              | AUD =>
                rw [thirtyDaySaleIncome_aud hcurcase] at hinc
                have hadj := Except.ok.inj hinc
                rw [hfrac, mul_one] at hadj
                have hnotusd : ¬(s.currency = Currency.USD ∧
                    truthy s.exchangeRate = true) := by
                  rw [hcurcase]; simp
                simp only [h1, ← hadj, hcurcase]
                simp
              | USD =>
                have ht : truthy s.exchangeRate = true := by
                  by_contra hf
                  exact hguard ⟨hcurcase, by simpa using hf⟩
                rw [thirtyDaySaleIncome_usd hcurcase ht] at hinc
                have hadj := Except.ok.inj hinc
                rw [hfrac, mul_one] at hadj
                simp only [h1, ← hadj, hcurcase, ht]
                simp

/-- Witness for C2 amended: a 40-day sale agrees exactly; a same-day full
disposal agrees after rounding. -/
theorem processVestingAndSale_vs_reconciler_agreement_witness :
    (processVestingAndSale vestC6 saleC6).map (fun r => r.taxableIncome) =
      (calculateRsuVestingTaxableIncome vestC6 [saleC6]).map
        (fun r => r.taxableIncome) ∧
    (processVestingAndSale vestC1 saleC2full).map (fun r => r.taxableIncome) =
      (calculateRsuVestingTaxableIncome vestC1 [saleC2full]).map
        (fun r => round2 r.taxableIncome) :=
  ⟨(processVestingAndSale_vs_reconciler_agreement vestC6 saleC6).1
      (by decide) (by with_unfolding_all rfl) (by with_unfolding_all rfl),
    (processVestingAndSale_vs_reconciler_agreement vestC1 saleC2full).2
      (by decide) (by decide) (by decide)
      (by with_unfolding_all rfl) (by with_unfolding_all rfl)⟩

/-- C3: for saleDate not before the reference date, `checkThirtyDayRule`
returns `daysBetween` equal to the millisecond difference divided by one
day's length and floored, with `applies` true exactly when `daysBetween ≤
30`; for saleDate before the reference date it fails with the
date-order error. -/
theorem thirty_day_rule_day_difference_and_boundary (v s : Int) :
    (v ≤ s →
      (checkThirtyDayRule v s).map (fun r => r.daysBetween) =
        .ok ((s - v).fdiv msPerDay) ∧
      (checkThirtyDayRule v s).map (fun r => r.applies) =
        .ok (decide ((s - v).fdiv msPerDay ≤ 30))) ∧
    (s < v → checkThirtyDayRule v s = .error .saleBeforeVesting) := by
  constructor
  · intro h
    have hns : ¬ s < v := not_lt.mpr h
    constructor <;> simp [checkThirtyDayRule, hns, Except.map]
  · intro h
    simp [checkThirtyDayRule, h]

/-- Witness for C3 at the boundary days 0, 19, 30, 31 and an inverted
date pair. -/
theorem thirty_day_rule_day_difference_and_boundary_witness :
    (checkThirtyDayRule 0 (19 * msPerDay)).map (fun r => r.applies) =
      .ok (decide ((19 * msPerDay - 0 : Int).fdiv msPerDay ≤ 30)) ∧
    checkThirtyDayRule 0 (-1) = .error .saleBeforeVesting ∧
    (checkThirtyDayRule 0 0).map (fun r => r.applies) = .ok true ∧
    (checkThirtyDayRule 0 (19 * msPerDay)).map (fun r => r.applies) =
      .ok true ∧
    (checkThirtyDayRule 0 (30 * msPerDay)).map (fun r => r.applies) =
      .ok true ∧
    (checkThirtyDayRule 0 (31 * msPerDay)).map (fun r => r.applies) =
      .ok false :=
  ⟨((thirty_day_rule_day_difference_and_boundary 0 (19 * msPerDay)).1
      (by decide)).2,
   (thirty_day_rule_day_difference_and_boundary 0 (-1)).2 (by decide),
   by decide, by decide, by decide, by decide⟩

/-- C4: for a sale date not before the acquisition date, the CGT discount
is eligible exactly when the holding period strictly exceeds 365 days,
the rate is 1/2 exactly when eligible with a positive gross gain and 0
otherwise (losses are never discounted), and the discounted gain is the
gross gain times (1 - rate) rounded to 2 decimals. -/
theorem cgt_discount_eligibility_rate_rounding (a s : Int) (g : ℚ)
    (h : a ≤ s) :
    (calculateCgtDiscount a s g).map (fun r => r.eligible) =
      .ok (decide (365 < (s - a).fdiv msPerDay)) ∧
    (calculateCgtDiscount a s g).map (fun r => r.discountRate) =
      .ok (if 365 < (s - a).fdiv msPerDay ∧ 0 < g then (1:ℚ)/2 else 0) ∧
    (calculateCgtDiscount a s g).map (fun r => r.discountedCapitalGain) =
      .ok (round2 (g * (1 -
        (if 365 < (s - a).fdiv msPerDay ∧ 0 < g then (1:ℚ)/2 else 0)))) := by
  have hns : ¬ s < a := not_lt.mpr h
  refine ⟨?_, ?_, ?_⟩ <;> simp [calculateCgtDiscount, hns, Except.map]

/-- Witness for C4: 366 days is eligible at rate 1/2; 365 days is not;
a loss held 517 days is time-eligible but has rate 0 and an unchanged
discounted gain. -/
theorem cgt_discount_eligibility_rate_rounding_witness :
    (calculateCgtDiscount 0 (366 * msPerDay) 100).map (fun r => r.eligible) =
      .ok (decide ((365:Int) < (366 * msPerDay - 0 : Int).fdiv msPerDay)) ∧
    (calculateCgtDiscount 0 (365 * msPerDay) 100).map (fun r => r.eligible) =
      .ok false ∧
    (calculateCgtDiscount 0 (366 * msPerDay) 100).map (fun r => r.eligible) =
      .ok true ∧
    (calculateCgtDiscount 0 (517 * msPerDay) (-100)).map
      (fun r => r.eligible) = .ok true ∧
    (calculateCgtDiscount 0 (517 * msPerDay) (-100)).map
      (fun r => r.discountRate) = .ok 0 ∧
    (calculateCgtDiscount 0 (517 * msPerDay) (-100)).map
      (fun r => r.discountedCapitalGain) = .ok (-100) :=
  ⟨(cgt_discount_eligibility_rate_rounding 0 (366 * msPerDay) 100
      (by decide)).1,
   by decide, by decide, by decide,
   by with_unfolding_all decide, by with_unfolding_all rfl⟩

/-- C8: `convertUsdToAud` returns `round2(amount / rate)` for non-negative
amounts and positive rates, and fails with the invalid-input errors
(`amountNegative` for a negative amount, `rateNonPositive` for a
non-positive rate — the two throw sites the spec groups as InvalidInput)
otherwise. -/
theorem convertUsdToAud_spec (amount rate : ℚ) (d : Int) :
    (0 ≤ amount → 0 < rate →
      (convertUsdToAud amount rate d).map (fun r => r.convertedAmount) =
        .ok (round2 (amount / rate))) ∧
    (amount < 0 → convertUsdToAud amount rate d = .error .amountNegative) ∧
    (0 ≤ amount → rate ≤ 0 →
      convertUsdToAud amount rate d = .error .rateNonPositive) := by
  refine ⟨?_, ?_, ?_⟩
  · intro h1 h2
    simp [convertUsdToAud, not_lt.mpr h1, not_le.mpr h2, Except.map]
  · intro h
    simp [convertUsdToAud, h]
  · intro h1 h2
    simp [convertUsdToAud, not_lt.mpr h1, h2]

/-- Witness for C8 at amount 3, rate 2 and the two failing inputs. -/
theorem convertUsdToAud_spec_witness :
    (convertUsdToAud 3 2 7).map (fun r => r.convertedAmount) =
      .ok (round2 (3 / 2)) ∧
    convertUsdToAud (-1) 2 7 = .error .amountNegative ∧
    convertUsdToAud 3 0 7 = .error .rateNonPositive :=
  ⟨(convertUsdToAud_spec 3 2 7).1 (by decide) (by decide),
   (convertUsdToAud_spec (-1) 2 7).2.1 (by decide),
   (convertUsdToAud_spec 3 0 7).2.2 (by decide) (by decide)⟩

/-- Counterexample for C5: the reconciler returns the exact value 10.004
as `taxableIncome`, which differs from that value rounded to 2 decimals —
so its final output is not rounded. -/
theorem reconciler_final_output_not_rounded :
    (calculateRsuVestingTaxableIncome vestC5 []).map
      (fun r => r.taxableIncome) = .ok (2501 / 250) ∧
    round2 (2501 / 250) ≠ (2501 / 250 : ℚ) :=
  ⟨by with_unfolding_all rfl, by with_unfolding_all decide⟩

/-- C5 amended: the reconciler applies no rounding to its final
`taxableIncome`; only currency-conversion sub-results round (at the point
of conversion).  In particular, for conversion-free inputs (AUD vesting
and AUD sales) the returned taxable income is exactly the unrounded
arithmetic value: baseline plus, per sale within 30 days, proceeds minus
proportional cost base minus fees minus the proportional baseline. -/
theorem reconciler_aud_income_exact_unrounded
    (ev : VestingEvent) (sales : List ShareSaleEvent)
    (res : TaxableIncomeResult)
    (hev : ev.currency = .AUD)
    (hs : ∀ s ∈ sales, s.currency = .AUD)
    (h : calculateRsuVestingTaxableIncome ev sales = .ok res) :
    res.taxableIncome =
      ev.sharePrice * ev.sharesVested - ev.costBase.getD 0 +
      (sales.map (fun s =>
        if (s.saleDate - ev.vestDate).fdiv msPerDay ≤ 30 then
          s.sharesSold * s.salePricePerShare -
            ev.costBase.getD 0 * (s.sharesSold / ev.sharesVested) -
            (s.brokerageCommission.getD 0 + s.supplementalFees.getD 0) -
            (ev.sharePrice * ev.sharesVested - ev.costBase.getD 0) *
              (s.sharesSold / ev.sharesVested)
        else 0)).sum := by
  have hbi : baselineIncome ev =
      ev.sharePrice * ev.sharesVested - ev.costBase.getD 0 := by
    simp [baselineIncome, hev]
  obtain ⟨a, t, p, hps, hti, hrem, hse, hcur⟩ := calc_ok_elim h
  obtain ⟨q, hq, hmap, hA, hT, hall⟩ :=
    processSales_ok _ _ _ _ _ _ _ _ _ _ _ hps
  have hcong : q.map (entryDelta (baselineIncome ev) ev.sharesVested) =
      (q.map (fun e => e.saleEvent)).map (fun s =>
        if (s.saleDate - ev.vestDate).fdiv msPerDay ≤ 30 then
          s.sharesSold * s.salePricePerShare -
            ev.costBase.getD 0 * (s.sharesSold / ev.sharesVested) -
            (s.brokerageCommission.getD 0 + s.supplementalFees.getD 0) -
            (ev.sharePrice * ev.sharesVested - ev.costBase.getD 0) *
              (s.sharesSold / ev.sharesVested)
        else 0) := by
    rw [List.map_map]
    refine List.map_congr_left ?_
    intro e he
    have hprops := hall e he
    have hmem : e.saleEvent ∈ sales := by
      have h1 : e.saleEvent ∈ q.map (fun e => e.saleEvent) :=
        List.mem_map_of_mem _ he
      rw [hmap] at h1
      exact (mem_sortBySaleDate _ _).mp h1
    have haud := hs e.saleEvent hmem
    have hinv := checkThirtyDayRule_ok_inv hprops.1
    by_cases hcond :
        (e.saleEvent.saleDate - ev.vestDate).fdiv msPerDay ≤ 30
    · have ha : e.thirtyDayRule.applies = true := by
        rw [hinv.2.2]
        exact decide_eq_true hcond
      have hinc := hprops.2.1 ha
      rw [thirtyDaySaleIncome_aud haud] at hinc
      have hadj := Except.ok.inj hinc
      simp only [Function.comp, entryDelta, ha, if_pos, if_true, hcond,
        ← hadj, hbi]
    · have ha : e.thirtyDayRule.applies = false := by
        rw [hinv.2.2]
        simp [hcond]
      simp [Function.comp, entryDelta, ha, hcond]
  rw [hti, hA, hcong, hmap, sortBySaleDate_map_sum, hbi]

/-- Witness for C5 amended: the concrete AUD run of C1's example matches
the exact unrounded formula. -/
theorem reconciler_aud_income_exact_unrounded_witness :
    calculateRsuVestingTaxableIncome vestC1 [saleC1] = .ok resC1 ∧
    resC1.taxableIncome =
      vestC1.sharePrice * vestC1.sharesVested - vestC1.costBase.getD 0 +
      ([saleC1].map (fun s =>
        if (s.saleDate - vestC1.vestDate).fdiv msPerDay ≤ 30 then
          s.sharesSold * s.salePricePerShare -
            vestC1.costBase.getD 0 * (s.sharesSold / vestC1.sharesVested) -
            (s.brokerageCommission.getD 0 + s.supplementalFees.getD 0) -
            (vestC1.sharePrice * vestC1.sharesVested -
              vestC1.costBase.getD 0) *
              (s.sharesSold / vestC1.sharesVested)
        else 0)).sum :=
  have h : calculateRsuVestingTaxableIncome vestC1 [saleC1] = .ok resC1 := by
    with_unfolding_all rfl
  ⟨h, reconciler_aud_income_exact_unrounded vestC1 [saleC1] resC1 rfl
    (by decide) h⟩

/-- Counterexample for C9: with matching currencies and no conversion
date, `convertShareEventValue` reads the ambient current date (the
source's `new Date()` call, modelled as the explicit `now` argument), so
identical business arguments yield different results under different
clock values. -/
theorem convertShareEventValue_depends_on_clock :
    convertShareEventValue 10 5 .AUD .AUD none none 0 ≠
      convertShareEventValue 10 5 .AUD .AUD none none 1 := by
  with_unfolding_all decide

/-- C9 amended: `convertShareEventValue` is deterministic given the
ambient current date: when the currencies match and no conversion date is
supplied, it fills `conversionDate` from the clock value and all other
fields from the arguments alone; whenever a conversion date is supplied
or the currencies differ, the result is independent of the clock. -/
theorem convertShareEventValue_clock_use
    (p q : ℚ) (sc tc : Currency) (r : Option ℚ) (d : Option Int)
    (now now2 : Int) :
    (sc = tc → d = none →
      convertShareEventValue p q sc tc r d now =
        .ok { originalAmount := p * q, originalCurrency := sc,
              convertedAmount := p * q, convertedCurrency := tc,
              exchangeRate := 1, conversionDate := now }) ∧
    (d ≠ none ∨ sc ≠ tc →
      convertShareEventValue p q sc tc r d now =
        convertShareEventValue p q sc tc r d now2) := by
  constructor
  · rintro rfl rfl
    simp [convertShareEventValue]
  · intro hcase
    unfold convertShareEventValue
    by_cases hst : sc = tc
    · rw [if_pos hst, if_pos hst]
      rcases hcase with hd | hne
      · cases d with
        | none => exact absurd rfl hd
        | some dd => simp
      · exact absurd hst hne
    · rw [if_neg hst, if_neg hst]

/-- Witness for C9 amended: the same-currency no-date case returns the
clock value as conversion date; with a supplied date the result is
clock-independent. -/
theorem convertShareEventValue_clock_use_witness :
    convertShareEventValue 10 5 .AUD .AUD none none 3 =
      .ok { originalAmount := 10 * 5, originalCurrency := .AUD,
            convertedAmount := 10 * 5, convertedCurrency := .AUD,
            exchangeRate := 1, conversionDate := 3 } ∧
    convertShareEventValue 8 2 .AUD .AUD (some 2) (some 9) 3 =
      convertShareEventValue 8 2 .AUD .AUD (some 2) (some 9) 4 :=
  ⟨(convertShareEventValue_clock_use 10 5 .AUD .AUD none none 3 4).1
      rfl rfl,
   (convertShareEventValue_clock_use 8 2 .AUD .AUD (some 2) (some 9)
      3 4).2 (Or.inl (by decide))⟩

/-- Counterexample for C10: a USD sale with an absent exchange rate made
31 days after vesting is accepted by the reconciler (no failure occurs),
contradicting the claim that every USD sale input with an absent or zero
rate makes `calculateRsuVestingTaxableIncome` fail. -/
theorem usd_sale_without_rate_accepted_after_thirty_days :
    saleC10.currency = .USD ∧ saleC10.exchangeRate = none ∧
    (calculateRsuVestingTaxableIncome vestC10 [saleC10]).map
      (fun r => r.remainingShares) = .ok 9 :=
  ⟨rfl, rfl, by with_unfolding_all rfl⟩

/-- C10 amended: a USD vesting input whose rate is absent or zero always
fails with the vesting exchange-rate error; a USD sale input whose rate
is absent or zero always fails in `calculateCapitalGains`, and fails in
the reconciler with the 30-day exchange-rate error whenever the 30-day
rule applies to that sale; each guard rejects before the corresponding
division by the rate is reached. -/
theorem exchange_rate_zero_or_missing_guards :
    (∀ (ev : VestingEvent) (sales : List ShareSaleEvent),
      ev.currency = .USD → truthy ev.exchangeRate = false →
      calculateRsuVestingTaxableIncome ev sales =
        .error .exchangeRateRequiredVesting) ∧
    (∀ (s : ShareSaleEvent) (cb : ℚ) (acq : Option Int),
      s.currency = .USD → truthy s.exchangeRate = false →
      calculateCapitalGains s cb acq =
        .error .exchangeRateRequiredUsdSales) ∧
    (∀ (ev : VestingEvent) (s : ShareSaleEvent),
      (ev.currency = .USD → truthy ev.exchangeRate = true) →
      s.currency = .USD → truthy s.exchangeRate = false →
      s.sharesSold ≤ ev.sharesVested →
      ev.vestDate ≤ s.saleDate →
      (s.saleDate - ev.vestDate).fdiv msPerDay ≤ 30 →
      calculateRsuVestingTaxableIncome ev [s] =
        .error .exchangeRateRequired30Day) := by
  refine ⟨?_, ?_, ?_⟩
  · intro ev sales h1 h2
    simp [calculateRsuVestingTaxableIncome, h1, h2]
  · intro s cb acq h1 h2
    simp [calculateCapitalGains, h1, h2]
  · intro ev s hg h1 h2 hshares hdate hcond
    have hg2 : ¬(ev.currency = .USD ∧ ¬ truthy ev.exchangeRate = true) := by
      rintro ⟨a1, a2⟩
      exact a2 (hg a1)
    unfold calculateRsuVestingTaxableIncome
    rw [if_neg hg2]
    dsimp only
    have hsort : sortBySaleDate [s] = [s] := rfl
    rw [hsort]
    simp only [processSales]
    rw [if_neg (by rw [zero_add]; exact not_lt.mpr hshares)]
    cases hc : checkThirtyDayRule ev.vestDate s.saleDate with
    | error e =>
      exact absurd (checkThirtyDayRule_error hc) (not_lt.mpr hdate)
    | ok tdr =>
      dsimp only
      have ha : tdr.applies = true := by
        rw [(checkThirtyDayRule_ok_inv hc).2.2]
        exact decide_eq_true hcond
      rw [if_pos ha, thirtyDaySaleIncome_usd_err h1 h2]

/-- Witness for C10 amended at concrete inputs: a rate-less USD vesting,
a rate-less USD sale in the capital-gains path, and a rate-less USD sale
on the vest day in the reconciler. -/
theorem exchange_rate_zero_or_missing_guards_witness :
    calculateRsuVestingTaxableIncome vestUsdNoRate [] =
      .error .exchangeRateRequiredVesting ∧
    calculateCapitalGains saleC10 0 none =
      .error .exchangeRateRequiredUsdSales ∧
    calculateRsuVestingTaxableIncome vestC10 [saleC10in] =
      .error .exchangeRateRequired30Day :=
  ⟨exchange_rate_zero_or_missing_guards.1 vestUsdNoRate [] rfl rfl,
   exchange_rate_zero_or_missing_guards.2.1 saleC10 0 none rfl rfl,
   exchange_rate_zero_or_missing_guards.2.2 vestC10 saleC10in
     (by decide) rfl rfl (by decide) (by decide) (by decide)⟩
